import Mathlib

/-!
Verification of the eCFR-analyzer ingestion-and-aggregation pipeline.

This file gives a shallow embedding, in Lean 4, of the core of the
`backend/app` package (`xml_parser.py`, `ingest.py`, `ecfr_client.py`):
the XML structural navigator and word/section counter, the two result
caches, the agency scope resolver, and the ingestion orchestrator.
Definitions are translated from the Python source; theorems settle the
specification's claims about them.
-/

namespace ECFR

/-! ## Words and text (xml_parser.py, `count_words_in_text`)

Python `str.split()` splits on runs of whitespace and drops empty
fragments.  We model the ASCII whitespace characters recognised by
`str.split` (space, tab, newline, carriage return, vertical tab, form
feed); the claims never hinge on the exotic Unicode space characters.
-/

def pyWhitespace (c : Char) : Bool :=
  c == ' ' || c == '\t' || c == '\n' || c == '\r' || c == '\x0b' || c == '\x0c'

/-- `len(text.split())`: the number of maximal whitespace-free runs of
the string, which is exactly how `str.split()` (no separator argument)
tokenizes.  `inWord` records whether the previous character belonged to
a word, so a run is counted once, at its first character. -/
def wordsAux : List Char → Bool → Nat
  | [], _ => 0
  | c :: cs, inWord =>
    if pyWhitespace c then wordsAux cs false
    else (if inWord then 0 else 1) + wordsAux cs true

/-- `count_words_in_text` (xml_parser.py lines 52-57): `if not text: return 0;
return len(text.split())`.  The `lru_cache` decorator is semantically
transparent for a pure function. -/
def count_words_in_text (text : String) : Nat :=
  if text = "" then 0 else wordsAux text.data false

/-- Contribution of an optional text fragment: Python's `if x:` guard on a
`str | None` field followed by `count_words_in_text(x)`.  (`None` and `""`
are both falsy and contribute 0.) -/
def wordsOpt : Option String → Nat
  | none => 0
  | some t => count_words_in_text t

/-! ## The XML element model (`xml.etree.ElementTree`)

An `Element` has a tag, attributes (of which only the identifier
attribute `N` is ever read by the parser, via `elem.attrib.get("N")`),
its own leading `text`, a trailing `tail`, and an ordered list of
children. -/

inductive XML : Type where
  | mk (tag : String) (attrN : Option String) (text : Option String)
       (tail : Option String) (children : List XML)

def XML.tag : XML → String
  | .mk t _ _ _ _ => t

def XML.attrN : XML → Option String
  | .mk _ n _ _ _ => n

def XML.text : XML → Option String
  | .mk _ _ tx _ _ => tx

def XML.tail : XML → Option String
  | .mk _ _ _ tl _ => tl

def XML.children : XML → List XML
  | .mk _ _ _ _ ch => ch

/-- Structural induction over the nested inductive `XML`. -/
theorem XML.ind {P : XML → Prop}
    (h : ∀ t n tx tl ch, (∀ c ∈ ch, P c) → P (.mk t n tx tl ch)) : ∀ x, P x := fun x =>
  match x with
  | .mk t n tx tl ch => h t n tx tl ch (fun c _hc => XML.ind h c)
termination_by x => sizeOf x
decreasing_by
  simp_wf
  have := List.sizeOf_lt_of_mem _hc
  omega

/-! Document-order traversal of an element and everything below it, the
order in which `ElementTree.Element.iter` yields elements (the element
itself first, then each child's subtree in order). -/
mutual
def preorder : XML → List XML
  | .mk t n tx tl ch => .mk t n tx tl ch :: preorderList ch
def preorderList : List XML → List XML
  | [] => []
  | c :: cs => preorder c ++ preorderList cs
end

/-- `element.iter(tag)`: the document-order elements of the subtree (the
element itself included) whose tag equals `tag`. -/
def iterTag (x : XML) (tag : String) : List XML :=
  (preorder x).filter (fun e => e.tag == tag)

/-! ## The guarded word counter (xml_parser.py, `count_words`, lines 116-129)

    def count_words(elem, depth=0):
        if depth > 100: return 0
        count = count_words_in_text(elem.text) if elem.text else 0
        for child in elem:
            count += count_words(child, depth + 1)
            if child.tail:
                count += count_words_in_text(child.tail)
        return count

The child's tail is counted by the parent's frame, so it is not subject
to the child's own depth cutoff. -/
mutual
def count_words : XML → Nat → Nat
  | .mk _ _ tx _ ch, depth =>
    if depth > 100 then 0
    else wordsOpt tx + count_words_list ch depth
def count_words_list : List XML → Nat → Nat
  | [], _ => 0
  | c :: cs, depth => count_words c (depth + 1) + wordsOpt c.tail + count_words_list cs depth
end

/-! The same counter with the depth guard removed (used to reason about
documents that never reach the guard). -/
mutual
def cwNG : XML → Nat
  | .mk _ _ tx _ ch => wordsOpt tx + cwNGList ch
def cwNGList : List XML → Nat
  | [] => 0
  | c :: cs => cwNG c + wordsOpt c.tail + cwNGList cs
end

/-! Height of an element: the maximum depth, relative to the element, at
which some element of its subtree sits (a childless element has height 0). -/
mutual
def height : XML → Nat
  | .mk _ _ _ _ ch => heightList ch
def heightList : List XML → Nat
  | [] => 0
  | c :: cs => max (height c + 1) (heightList cs)
end

/-! ## References and structural navigation

A `cfr_reference` from the agencies feed, as consumed by the pipeline: a
document number (`title`, always an integer in the feed) and optional
`chapter` / `part` subdivision identifiers.  The same dict doubles as the
`structure` argument of `get_section_and_word_count_by_structure`. -/

structure CFRRef where
  title : Nat
  chapter : Option String
  part : Option String
deriving DecidableEq

/-- Decimal digits of a natural number, the Python `str(int)` rendering. -/
def natChars (n : Nat) : List Char :=
  if n < 10 then [Char.ofNat (48 + n)]
  else natChars (n / 10) ++ [Char.ofNat (48 + n % 10)]
decreasing_by exact Nat.div_lt_self (by omega) (by omega)

def natString (n : Nat) : String := String.mk (natChars n)

/-- The value the navigator matches at one structural level:
`value = structure.get(key); if not value: continue` — a falsy value
(the integer 0 for `title`) skips the level; otherwise `str(value)` is
matched. -/
def levelValTitle (t : Nat) : Option String :=
  if t = 0 then none else some (natString t)

/-- Falsy check for a string-valued level: absent (`None`) or `""` skips
the level. -/
def levelValStr : Option String → Option String
  | none => none
  | some s => if s = "" then none else some s

/-- One lookup step: the first element of `current_element.iter(tag)` whose
`attrib.get("N")` equals the requested value (xml_parser.py lines 106-111). -/
def findN (cur : XML) (tag v : String) : Option XML :=
  (iterTag cur tag).find? (fun e => e.attrN == some v)

/-- The level-descent loop of xml_parser.py lines 97-114: for each
`(tag, key)` of `tag_order`, a falsy value skips the level; otherwise
descend into the first match, and fail the whole lookup if there is none. -/
def navLevels : XML → List (String × Option String) → Option XML
  | cur, [] => some cur
  | cur, (tag, v?) :: rest =>
    match v? with
    | none => navLevels cur rest
    | some v =>
      match findN cur tag v with
      | none => none
      | some e => navLevels e rest

/-- `tag_order = [('DIV1', 'title'), ('DIV3', 'chapter'), ('DIV5', 'part')]`
applied to a reference/structure dict. -/
def navigate (root : XML) (r : CFRRef) : Option XML :=
  navLevels root
    [("DIV1", levelValTitle r.title), ("DIV3", levelValStr r.chapter), ("DIV5", levelValStr r.part)]

/-- The pure core of `get_section_and_word_count_by_structure`
(xml_parser.py lines 97-140), given an already-parsed root: descend the
structural levels, then count `DIV8` descendants and words; any level
with no match yields `(0, 0)`.  (The function's file reading, parse
failure and its result cache are modelled separately; the cache is
consulted with a key that determines the whole `(filename, structure)`
pair, so on a well-formed cache it is semantically transparent.) -/
def get_section_and_word_count_by_structure (root : XML) (r : CFRRef) : Nat × Nat :=
  match navigate root r with
  | none => (0, 0)
  | some e => ((iterTag e "DIV8").length, count_words e 0)

/-! ## The file-backed result cache (xml_parser.py lines 23-50)

`get_cache_key` hashes `f"{filename}:{json.dumps(structure, sort_keys=True)}"`
with md5.  The md5 step is not modelled (the spec puts hash collisions out
of scope); the key is modelled as its pre-hash input string, so the
claims about key construction are claims about that string. -/

/-- One lowercase hexadecimal digit, as CPython's `\uXXXX` escapes print it. -/
def hexDigitChar (d : Nat) : Char :=
  if d < 10 then Char.ofNat (48 + d) else Char.ofNat (87 + d)

def hex4 (n : Nat) : List Char :=
  [hexDigitChar (n / 4096 % 16), hexDigitChar (n / 256 % 16),
   hexDigitChar (n / 16 % 16), hexDigitChar (n % 16)]

/-- `json.dumps` escaping of one character with the default
`ensure_ascii=True`: quote and backslash are backslash-escaped, the
short control escapes are used where they exist, other control and all
non-ASCII characters become `\uXXXX` (a surrogate pair above the BMP). -/
def escChar (c : Char) : List Char :=
  if c = '"' then ['\\', '"']
  else if c = '\\' then ['\\', '\\']
  else if c = '\n' then ['\\', 'n']
  else if c = '\t' then ['\\', 't']
  else if c = '\r' then ['\\', 'r']
  else if c = '\x08' then ['\\', 'b']
  else if c = '\x0c' then ['\\', 'f']
  else if c.toNat < 32 then '\\' :: 'u' :: hex4 c.toNat
  else if c.toNat < 127 then [c]
  else if c.toNat < 65536 then '\\' :: 'u' :: hex4 c.toNat
  else ('\\' :: 'u' :: hex4 (55296 + (c.toNat - 65536) / 1024)) ++
       ('\\' :: 'u' :: hex4 (56320 + (c.toNat - 65536) % 1024))

/-- The escaped character data of a JSON string literal for `s`. -/
def escData (s : String) : List Char :=
  (s.data.map escChar).flatten

/-- A JSON string literal for `s`. -/
def jsonStr (s : String) : String :=
  "\"" ++ String.mk (escData s) ++ "\""

/-- `json.dumps(structure, sort_keys=True)` for a reference dict: present
keys only, in sorted key order (`chapter` < `part` < `title`), with the
default separators `", "` and `": "`, written out for each of the four
key-presence shapes. -/
def jsonDumps (r : CFRRef) : String :=
  match r.chapter, r.part with
  | some c, some p =>
    "\x7b\"chapter\": " ++ jsonStr c ++ ", \"part\": " ++ jsonStr p ++
      ", \"title\": " ++ natString r.title ++ "\x7d"
  | some c, none =>
    "\x7b\"chapter\": " ++ jsonStr c ++ ", \"title\": " ++ natString r.title ++ "\x7d"
  | none, some p =>
    "\x7b\"part\": " ++ jsonStr p ++ ", \"title\": " ++ natString r.title ++ "\x7d"
  | none, none =>
    "\x7b\"title\": " ++ natString r.title ++ "\x7d"

/-- The pre-hash input of `get_cache_key` (xml_parser.py lines 23-26):
`f"{filename}:{json.dumps(structure, sort_keys=True)}"`. -/
def key_data (filename : String) (r : CFRRef) : String :=
  filename ++ ":" ++ jsonDumps r

/-- The in-memory `xml_cache` key built by the orchestrator
(ingest.py line 69): `f"{title}_{ref.get('chapter', '')}_{ref.get('part', '')}"`. -/
def xml_cache_key (r : CFRRef) : String :=
  natString r.title ++ "_" ++ r.chapter.getD "" ++ "_" ++ r.part.getD ""

/-- The cache directory: one JSON artifact per key (`CACHE_DIR/{key}.json`),
modelled as a map from key to file contents. -/
def CacheDir := String → Option String

/-- The byte content `json.dump({'section_count': sc, 'word_count': wc}, f)`
writes: insertion-ordered keys, default separators. -/
def cacheFileContent (sc wc : Nat) : String :=
  "\x7b\"section_count\": " ++ natString sc ++ ", \"word_count\": " ++ natString wc ++ "\x7d"

/-- `save_to_cache` (xml_parser.py lines 39-50): overwrite the key's file
with the serialized result. -/
def save_to_cache (dir : CacheDir) (key : String) (sc wc : Nat) : CacheDir :=
  fun k => if k = key then some (cacheFileContent sc wc) else dir k

/-- Strip an expected literal prefix, as `json.load` consumes it. -/
def stripLit : List Char → List Char → Option (List Char)
  | [], cs => some cs
  | _ :: _, [] => none
  | p :: ps, c :: cs => if c = p then stripLit ps cs else none

/-- Decimal reading of a digit run, as `json.load` turns it into an int. -/
def readNat (cs : List Char) : Nat :=
  cs.foldl (fun a c => a * 10 + (c.toNat - 48)) 0

/-- The decimal digit characters accepted by the JSON number grammar. -/
def isDigitChar (c : Char) : Bool :=
  decide (48 ≤ c.toNat) && decide (c.toNat ≤ 57)

/-- `json.load` of a cache artifact followed by the caller's
`['section_count']`, `['word_count']` field reads, for artifacts of the
exact shape `save_to_cache` writes; anything else (a partial or foreign
file) is a parse failure, which `get_cached_result` turns into `None`. -/
def parseCacheJson (s : String) : Option (Nat × Nat) := do
  let cs ← stripLit ("\x7b\"section_count\": ").data s.data
  let ds := cs.takeWhile isDigitChar
  let rest := cs.dropWhile isDigitChar
  if ds = [] then none else do
  let cs2 ← stripLit (", \"word_count\": ").data rest
  let ds2 := cs2.takeWhile isDigitChar
  let rest2 := cs2.dropWhile isDigitChar
  if ds2 = [] then none else do
  let cs3 ← stripLit ("\x7d").data rest2
  if cs3 = [] then some (readNat ds, readNat ds2) else none

/-- `get_cached_result` (xml_parser.py lines 28-37): `None` when the
key's file is absent or unreadable, otherwise the parsed result. -/
def get_cached_result (dir : CacheDir) (key : String) : Option (Nat × Nat) :=
  match dir key with
  | none => none
  | some content => parseCacheJson content

/-! ## Scope resolution (ecfr_client.py lines 61-81) -/

/-- A raw reference entry of the agencies feed as the orchestrator sees
it: `some r` is a well-formed reference dict, `none` a malformed entry
whose `ref['title']` access raises (the orchestrator's per-reference
error path, ingest.py lines 81-84). -/
abbrev RefItem := Option CFRRef

/-- A node of the nested agency tree of the agencies feed: a name, its
own `cfr_references`, and its child agencies. -/
inductive AgencyT : Type where
  | mk (name : String) (refs : List RefItem) (children : List AgencyT)

def AgencyT.name : AgencyT → String
  | .mk n _ _ => n

/-! `extract_all_refs` (ecfr_client.py lines 61-66): an agency's own
references followed, in listed child order, by each child's recursively
flattened references.  (The Python version extends the agency's own list
in place; the value it returns is this concatenation, and each agency of
the feed's tree is visited once per run, so the pure rendering is
faithful.) -/
mutual
def extract_all_refs : AgencyT → List RefItem
  | .mk _ refs ch => refs ++ extract_all_refs_list ch
def extract_all_refs_list : List AgencyT → List RefItem
  | [] => []
  | a :: rest => extract_all_refs a ++ extract_all_refs_list rest
end

/-- Python dict assignment `m[k] = v`: overwrite an existing key in
place, else append (dicts preserve insertion order). -/
def dictInsert (m : List (String × List RefItem)) (k : String) (v : List RefItem) :
    List (String × List RefItem) :=
  if m.any (fun p => p.1 == k) then
    m.map (fun p => if p.1 == k then (k, v) else p)
  else m ++ [(k, v)]

/-- `get_agency_scope_map` (ecfr_client.py lines 68-81) applied to the
decoded `data["agencies"]` list: flatten each top-level agency and keep
the nonempty scopes (`if refs:`). -/
def get_agency_scope_map (agencies : List AgencyT) : List (String × List RefItem) :=
  agencies.foldl
    (fun m a =>
      let refs := extract_all_refs a
      if refs.isEmpty then m else dictInsert m a.name refs)
    []

/-! ## The ingestion orchestrator (ingest.py lines 22-136) -/

/-- The synced corpus as one run sees it: whether
`data/titles/title-N.xml` exists, and its parse result when it does
(`none` models an empty or unparsable file, for which the parser
returns `(0, 0)`). -/
structure Corpus where
  fileExists : Nat → Bool
  docs : Nat → Option XML

/-- `get_section_and_word_count_by_structure` called on
`f"data/titles/title-{ref['title']}.xml"` with the reference itself as
the structure, all of the parser's own failure paths included
(xml_parser.py lines 78-95: missing file, empty file, parse error all
yield `(0, 0)`). -/
def countFor (env : Corpus) (r : CFRRef) : Nat × Nat :=
  if env.fileExists r.title then
    match env.docs r.title with
    | some root => get_section_and_word_count_by_structure root r
    | none => (0, 0)
  else (0, 0)

/-- The state of the per-reference loop (ingest.py lines 44-84): running
totals, the processed/skipped counters, and the process-wide `xml_cache`
dict. -/
structure RefLoopSt where
  sTot : Nat
  wTot : Nat
  processed : Nat
  skipped : Nat
  cache : List (String × (Nat × Nat))

/-- One iteration of the per-reference loop (ingest.py lines 50-84): a
malformed entry raises at `ref['title']` and is caught and skipped;
title 35 is a hard-coded permanent skip; a missing title file is
skipped; otherwise consult `xml_cache` under `xml_cache_key` and fall
back to the parser (caching its result), then accumulate the totals. -/
def stepRef (env : Corpus) (st : RefLoopSt) : RefItem → RefLoopSt
  | none => { st with skipped := st.skipped + 1 }
  | some r =>
    if r.title = 35 then { st with skipped := st.skipped + 1 }
    else if env.fileExists r.title = false then { st with skipped := st.skipped + 1 }
    else
      match st.cache.lookup (xml_cache_key r) with
      | some (sc, wc) =>
        { st with sTot := st.sTot + sc, wTot := st.wTot + wc, processed := st.processed + 1 }
      | none =>
        let (sc, wc) := countFor env r
        { st with sTot := st.sTot + sc, wTot := st.wTot + wc,
                  processed := st.processed + 1,
                  cache := (xml_cache_key r, (sc, wc)) :: st.cache }

def processRefs (env : Corpus) (st : RefLoopSt) (refs : List RefItem) : RefLoopSt :=
  refs.foldl (stepRef env) st

/-- The persisted `AgencyMetrics` rows that the claims read: name,
`section_count`, `word_count`. -/
abbrev DB := List (String × Nat × Nat)

/-- The upsert of ingest.py lines 89-105: update the row matching the
name, else insert a new one. -/
def upsertRow (db : DB) (n : String) (sc wc : Nat) : DB :=
  if db.any (fun row => row.1 == n) then
    db.map (fun row => if row.1 == n then (n, sc, wc) else row)
  else db ++ [(n, sc, wc)]

/-- One iteration of the per-agency loop (ingest.py lines 41-114).
`persistFails n = true` models an exception from the session work for
agency `n` (the query/commit of lines 89-108): the transaction is rolled
back — the database keeps its prior rows — while the mutation of the
process-wide `xml_cache` survives, and the loop continues with the next
agency. -/
def stepAgency (env : Corpus) (persistFails : String → Bool)
    (acc : DB × List (String × (Nat × Nat))) (entry : String × List RefItem) :
    DB × List (String × (Nat × Nat)) :=
  let st := processRefs env ⟨0, 0, 0, 0, acc.2⟩ entry.2
  if persistFails entry.1 then (acc.1, st.cache)
  else (upsertRow acc.1 entry.1 st.sTot st.wTot, st.cache)

/-- What `run_ingestion` leaves behind: the final database rows, and the
exception the call propagates to its caller — always `none`, because its
body is wrapped in a `try/except` (ingest.py lines 118-125) that logs
and swallows every error instead of re-raising. -/
structure RunResult where
  db : DB
  raised : Option String

/-- `run_ingestion` (ingest.py lines 22-125) over explicit outcomes of
its two fallible phases: `sync` is the outcome of
`ensure_titles_downloaded`, `scope` that of `get_agency_scope_map` (both
re-raise their errors: ecfr_client.py lines 114-116 and 82-84).  An
error in either phase aborts the run before any agency is processed and
is caught by the outer handler, not re-raised.  `db0` is the database
before the run, `cache0` the process-wide `xml_cache` at call time
(empty in a fresh process). -/
def run_ingestion (env : Corpus) (persistFails : String → Bool)
    (sync : Except String Unit) (scope : Except String (List (String × List RefItem)))
    (db0 : DB) (cache0 : List (String × (Nat × Nat))) : RunResult :=
  match sync with
  | .error _ => { db := db0, raised := none }
  | .ok () =>
    match scope with
    | .error _ => { db := db0, raised := none }
    | .ok m => { db := (m.foldl (stepAgency env persistFails) (db0, cache0)).1, raised := none }

/-- The specification's per-reference `CountResult` contribution to an
agency's totals: a known-missing (title 35) or absent document
contributes `(0, 0)`; any other reference contributes its
navigator-and-counter result. -/
def specContrib (env : Corpus) (r : CFRRef) : Nat × Nat :=
  if r.title = 35 ∨ env.fileExists r.title = false then (0, 0) else countFor env r

def sumPairs (l : List (Nat × Nat)) : Nat × Nat :=
  l.foldr (fun p q => (p.1 + q.1, p.2 + q.2)) (0, 0)

/-! ## Generic helper lemmas -/

theorem string_eq_of_data {s t : String} (h : s.data = t.data) : s = t := by
  cases s; cases t; exact congrArg String.mk h

/-- Splitting a concatenation at a separator that occurs in neither left
part is unambiguous. -/
theorem split_unique {α : Type} {sep : α} :
    ∀ (a : List α) {b x y : List α}, sep ∉ a → sep ∉ b →
      a ++ sep :: x = b ++ sep :: y → a = b ∧ x = y := by
  intro a
  induction a with
  | nil =>
    intro b x y _ hb h
    cases b with
    | nil => simpa using h
    | cons d b' =>
      exfalso
      simp only [List.nil_append, List.cons_append, List.cons.injEq] at h
      exact hb (by rw [h.1]; exact List.mem_cons_self d b')
  | cons c a' ih =>
    intro b x y ha hb h
    cases b with
    | nil =>
      exfalso
      simp only [List.cons_append, List.nil_append, List.cons.injEq] at h
      exact ha (by rw [← h.1]; exact List.mem_cons_self c a')
    | cons d b' =>
      simp only [List.cons_append, List.cons.injEq] at h
      obtain ⟨rfl, h2⟩ := h
      have := ih (fun hm => ha (List.mem_cons_of_mem _ hm))
        (fun hm => hb (List.mem_cons_of_mem _ hm)) h2
      exact ⟨by rw [this.1], this.2⟩

theorem digit_toNat {d : Nat} (h : d < 10) : (Char.ofNat (48 + d)).toNat = 48 + d := by
  interval_cases d <;> decide

theorem natChars_digits (n : Nat) : ∀ c ∈ natChars n, 48 ≤ c.toNat ∧ c.toNat ≤ 57 := by
  induction n using Nat.strong_induction_on with
  | _ n ih =>
    rw [natChars]
    by_cases h : n < 10
    · simp only [if_pos h, List.mem_singleton]
      rintro c rfl
      rw [digit_toNat h]; omega
    · simp only [if_neg h]
      intro c hc
      rcases List.mem_append.1 hc with h1 | h1
      · exact ih (n / 10) (Nat.div_lt_self (by omega) (by omega)) c h1
      · rcases List.mem_singleton.1 h1 with rfl
        rw [digit_toNat (Nat.mod_lt _ (by omega))]
        have : n % 10 < 10 := Nat.mod_lt _ (by omega)
        omega

theorem readNat_natChars (n : Nat) : readNat (natChars n) = n := by
  induction n using Nat.strong_induction_on with
  | _ n ih =>
    rw [natChars]
    by_cases h : n < 10
    · simp only [if_pos h]
      simp [readNat, digit_toNat h]
    · simp only [if_neg h]
      simp only [readNat, List.foldl_append, List.foldl_cons, List.foldl_nil]
      have hrec := ih (n / 10) (Nat.div_lt_self (by omega) (by omega))
      simp only [readNat] at hrec
      rw [hrec, digit_toNat (Nat.mod_lt _ (by omega))]
      omega

theorem natChars_inj {a b : Nat} (h : natChars a = natChars b) : a = b := by
  have ha := readNat_natChars a
  rw [h, readNat_natChars b] at ha
  omega

theorem natString_inj {a b : Nat} (h : natString a = natString b) : a = b :=
  natChars_inj (congrArg String.data h)

theorem not_mem_natChars_of_toNat {c : Char} (hc : c.toNat < 48 ∨ 57 < c.toNat) (n : Nat) :
    c ∉ natChars n := by
  intro hmem
  have := natChars_digits n c hmem
  omega

/-! ## Claim C3: the end-to-end example -/

/-- The example document of the specification: one `DIV1` identified
`"1"` containing one `DIV3` identified `"III"` containing one `DIV5`
identified `"425"` that holds two `DIV8` section markers, the text
`"Lorem ipsum dolor"`, and one child element with text `"sit amet"`. -/
def exampleDoc : XML :=
  .mk "ECFR" none none none
    [.mk "DIV1" (some "1") none none
      [.mk "DIV3" (some "III") none none
        [.mk "DIV5" (some "425") (some "Lorem ipsum dolor") none
          [.mk "DIV8" none none none [],
           .mk "DIV8" none none none [],
           .mk "P" none (some "sit amet") none []]]]]

theorem natString_1 : natString 1 = "1" := by
  show String.mk (natChars 1) = "1"
  rw [natChars]; rfl

/-- Claim C3: on the example document, the reference
`{title: 1, chapter: "III", part: "425"}` locates the `DIV5` subtree and
yields `section_count = 2` (two `DIV8` descendants) and `word_count = 5`
(3 words of the node's own text plus 2 words of the child's text). -/
theorem claim_C3 :
    get_section_and_word_count_by_structure exampleDoc ⟨1, some "III", some "425"⟩ = (2, 5) := by
  simp [exampleDoc, get_section_and_word_count_by_structure, navigate, navLevels, levelValTitle,
    levelValStr, natString_1, findN, iterTag, preorder, preorderList, XML.tag, XML.attrN,
    XML.tail, count_words, count_words_list, wordsOpt, count_words_in_text, wordsAux,
    pyWhitespace]

/-! ## Claim C10: falsy level values skip the level -/

/-- Claim C10: a structural level whose value is present but falsy (the
empty string for `chapter`/`part`, the integer 0 for `title`) is skipped
exactly as if it were unspecified (`value = structure.get(key); if not
value: continue`), and a reference whose levels are all falsy counts the
enclosing subtree instead of being matched or rejected. -/
theorem claim_C10 (root : XML) (t : Nat) (ch p : Option String) :
    get_section_and_word_count_by_structure root ⟨t, some "", p⟩ =
      get_section_and_word_count_by_structure root ⟨t, none, p⟩ ∧
    get_section_and_word_count_by_structure root ⟨t, ch, some ""⟩ =
      get_section_and_word_count_by_structure root ⟨t, ch, none⟩ ∧
    get_section_and_word_count_by_structure root ⟨0, some "", some ""⟩ =
      ((iterTag root "DIV8").length, count_words root 0) := by
  refine ⟨?_, ?_, ?_⟩ <;>
    simp [get_section_and_word_count_by_structure, navigate, navLevels, levelValTitle, levelValStr]

/-! ## Claim C9: cache round trip -/

theorem stripLit_append (p rest : List Char) : stripLit p (p ++ rest) = some rest := by
  induction p with
  | nil => rfl
  | cons c cs ih => simp [stripLit, ih]

theorem natChars_isDigit (n : Nat) : ∀ c ∈ natChars n, isDigitChar c = true := by
  intro c hc
  have h := natChars_digits n c hc
  simp [isDigitChar]
  omega

theorem natChars_ne_nil (n : Nat) : natChars n ≠ [] := by
  rw [natChars]
  split <;> simp

/-- `takeWhile`/`dropWhile` cut a digit run exactly at its first
non-digit character. -/
theorem digits_cut {ds : List Char} (hds : ∀ c ∈ ds, isDigitChar c = true)
    {c0 : Char} (hc0 : isDigitChar c0 = false) (rest : List Char) :
    (ds ++ c0 :: rest).takeWhile isDigitChar = ds ∧
    (ds ++ c0 :: rest).dropWhile isDigitChar = c0 :: rest := by
  induction ds with
  | nil => simp [List.takeWhile_cons, List.dropWhile_cons, hc0]
  | cons d ds' ih =>
    have hd := hds d (List.mem_cons_self _ _)
    have hrest := ih (fun c hc => hds c (List.mem_cons_of_mem _ hc))
    simp [List.takeWhile_cons, List.dropWhile_cons, hd, hrest.1, hrest.2]

theorem parse_cacheFileContent (sc wc : Nat) :
    parseCacheJson (cacheFileContent sc wc) = some (sc, wc) := by
  have hdata : (cacheFileContent sc wc).data =
      ("\x7b\"section_count\": ").data ++
        (natChars sc ++ ',' :: ((" \"word_count\": ").data ++ (natChars wc ++ '\x7d' :: []))) := by
    simp [cacheFileContent, natString, String.data_append]
  have hcomma : isDigitChar ',' = false := by decide
  have hbrace : isDigitChar '\x7d' = false := by decide
  have cut1 := digits_cut (natChars_isDigit sc) hcomma
    ((" \"word_count\": ").data ++ (natChars wc ++ '\x7d' :: []))
  have cut2 := digits_cut (natChars_isDigit wc) hbrace []
  unfold parseCacheJson
  rw [hdata, stripLit_append]
  simp only [Option.bind_eq_bind, Option.some_bind]
  rw [cut1.1, cut1.2, if_neg (natChars_ne_nil sc)]
  have fold1 : (',' :: ((" \"word_count\": ").data ++ (natChars wc ++ '\x7d' :: []))) =
      (", \"word_count\": ").data ++ (natChars wc ++ '\x7d' :: []) := rfl
  rw [fold1, stripLit_append]
  simp only [Option.bind_eq_bind, Option.some_bind]
  rw [cut2.1, cut2.2, if_neg (natChars_ne_nil wc)]
  have e3 : stripLit ("\x7d").data ['\x7d'] = some [] := rfl
  rw [e3]
  simp [readNat_natChars]

/-- Claim C9: `save_to_cache(key, sc, wc)` followed by
`get_cached_result(key)` returns exactly the stored pair — the
serialize-then-parse round trip of the file-backed result cache is the
identity on both fields. -/
theorem claim_C9 (dir : CacheDir) (key : String) (sc wc : Nat) :
    get_cached_result (save_to_cache dir key sc wc) key = some (sc, wc) := by
  simp [get_cached_result, save_to_cache, parse_cacheFileContent]

/-! ## Claim C7: scope flattening -/

theorem extract_all_refs_list_eq (l : List AgencyT) :
    extract_all_refs_list l = (l.map extract_all_refs).flatten := by
  induction l with
  | nil => rw [extract_all_refs_list]; rfl
  | cons a rest ih => rw [extract_all_refs_list, ih]; simp

theorem dictInsert_preserves {m : List (String × List RefItem)} {k : String}
    {v : List RefItem} (hm : ∀ row ∈ m, row.2 ≠ []) (hv : v ≠ []) :
    ∀ row ∈ dictInsert m k v, row.2 ≠ [] := by
  intro row hrow
  unfold dictInsert at hrow
  split at hrow
  · rcases List.mem_map.1 hrow with ⟨p, hp, hpe⟩
    by_cases h : p.1 == k
    · rw [if_pos h] at hpe
      rw [← hpe]
      exact hv
    · rw [if_neg h] at hpe
      rw [← hpe]
      exact hm p hp
  · rcases List.mem_append.1 hrow with h | h
    · exact hm row h
    · rcases List.mem_singleton.1 h with rfl
      exact hv

theorem scope_fold_preserves (agencies : List AgencyT) :
    ∀ m, (∀ row ∈ m, row.2 ≠ []) →
      ∀ row ∈ agencies.foldl
          (fun m a =>
            let refs := extract_all_refs a
            if refs.isEmpty then m else dictInsert m a.name refs) m,
        row.2 ≠ [] := by
  induction agencies with
  | nil => intro m hm row hrow; exact hm row hrow
  | cons a rest ih =>
    intro m hm row hrow
    simp only [List.foldl_cons] at hrow
    by_cases hem : (extract_all_refs a).isEmpty
    · rw [if_pos hem] at hrow
      exact ih m hm row hrow
    · rw [if_neg hem] at hrow
      refine ih _ ?_ row hrow
      exact dictInsert_preserves hm (by simpa [List.isEmpty_iff] using hem)

/-- Claim C7: `extract_all_refs` flattens an agency node to its own
references followed, in listed child order, by each child's recursively
resolved references (so a parent holding `[A]` with one child holding
`[B]` resolves to `[A, B]`), and `get_agency_scope_map` omits every
agency whose flattened reference list is empty. -/
theorem claim_C7 :
    (∀ (n : String) (rs : List RefItem) (cs : List AgencyT),
       extract_all_refs (.mk n rs cs) = rs ++ (cs.map extract_all_refs).flatten) ∧
    (∀ (n n' : String) (A B : RefItem),
       extract_all_refs (.mk n [A] [.mk n' [B] []]) = [A, B]) ∧
    (∀ (agencies : List AgencyT) (row : String × List RefItem),
       row ∈ get_agency_scope_map agencies → row.2 ≠ []) := by
  refine ⟨?_, ?_, ?_⟩
  · intro n rs cs
    rw [extract_all_refs, extract_all_refs_list_eq]
  · intro n n' A B
    rw [extract_all_refs, extract_all_refs_list_eq]
    simp [extract_all_refs, extract_all_refs_list_eq]
  · intro agencies row hrow
    exact scope_fold_preserves agencies [] (by simp) row hrow

theorem claim_C7_witness :
    (("A", [(some (CFRRef.mk 1 none none) : RefItem)]) : String × List RefItem).2 ≠ [] :=
  claim_C7.2.2 [.mk "A" [some (CFRRef.mk 1 none none)] []] _
    (by simp [get_agency_scope_map, extract_all_refs, extract_all_refs_list, dictInsert, AgencyT.name])

/-! ## Claim C2: failed structural lookup yields zero counts -/

/-- Claim C2 (amended): at any level whose value is specified, if no
element of the subtree rooted at the current node — the current node
itself included, since `Element.iter` yields the element itself first —
has the level's tag with identifier attribute `N` string-equal to the
requested value, the whole lookup fails, and a failed lookup yields
`(0, 0)`: no partial credit and no fallback search.  (The claim as
frozen says "no descendant element"; `iter` also matches the current
node itself, see the counterexample.) -/
theorem claim_C2 :
    (∀ (cur : XML) (tag v : String) (rest : List (String × Option String)),
        (∀ e ∈ preorder cur, e.tag = tag → e.attrN ≠ some v) →
        navLevels cur ((tag, some v) :: rest) = none) ∧
    (∀ (root : XML) (r : CFRRef), navigate root r = none →
        get_section_and_word_count_by_structure root r = (0, 0)) := by
  constructor
  · intro cur tag v rest h
    have hfind : findN cur tag v = none := by
      rw [findN, List.find?_eq_none]
      intro e he
      rw [iterTag, List.mem_filter] at he
      have htag : e.tag = tag := by simpa using he.2
      simpa using h e he.1 htag
    simp [navLevels, hfind]
  · intro root r h
    simp [get_section_and_word_count_by_structure, h]

theorem claim_C2_witness :
    navLevels (.mk "X" none none none []) [("DIV1", some "1")] = none ∧
    get_section_and_word_count_by_structure (.mk "X" none none none []) ⟨1, none, none⟩ = (0, 0) := by
  constructor
  · refine claim_C2.1 _ "DIV1" "1" [] ?_
    intro e he
    simp only [preorder, preorderList, List.mem_singleton] at he
    subst he
    intro htag
    exact absurd htag (by decide)
  · refine claim_C2.2 _ _ ?_
    simp [navigate, navLevels, levelValTitle, levelValStr, natString_1, findN, iterTag,
      preorder, preorderList, XML.tag]

/-- Counterexample to claim C2 as frozen: in this document the root
itself is a `DIV1` with `N="1"` and, as required by the claim's
hypothesis, **no descendant** element is; yet the lookup for
`{title: 1}` succeeds (`iter` yields the current node itself first) and
returns `(1, 2)`, not `(0, 0)`. -/
theorem claim_C2_counterexample :
    (∀ e ∈ preorderList (XML.children (.mk "DIV1" (some "1") (some "hello world") none
        [.mk "DIV8" none none none []])),
      ¬(e.tag = "DIV1" ∧ e.attrN = some "1")) ∧
    get_section_and_word_count_by_structure
      (.mk "DIV1" (some "1") (some "hello world") none [.mk "DIV8" none none none []])
      ⟨1, none, none⟩ = (1, 2) := by
  constructor
  · intro e he
    simp only [XML.children, preorderList, preorder, List.append_nil, List.mem_singleton] at he
    subst he
    simp [XML.tag]
  · simp [get_section_and_word_count_by_structure, navigate, navLevels, levelValTitle,
      levelValStr, natString_1, findN, iterTag, preorder, preorderList, XML.tag, XML.attrN,
      XML.tail, count_words, count_words_list, wordsOpt, count_words_in_text, wordsAux,
      pyWhitespace]

/-! ## Claim C8: missing documents are logged skips, not failures -/

/-- Claim C8: a reference whose document file is absent from the synced
corpus, or whose title is the hard-coded known-missing title 35, is
recorded as a skip (`skipped_refs += 1`), contributes `(0, 0)` to the
agency's running totals, and the loop continues with the remaining
references from an otherwise unchanged state. -/
theorem claim_C8 (env : Corpus) (st : RefLoopSt) (r : CFRRef) (rest : List RefItem)
    (h : r.title = 35 ∨ env.fileExists r.title = false) :
    stepRef env st (some r) = { st with skipped := st.skipped + 1 } ∧
    processRefs env st (some r :: rest) =
      processRefs env { st with skipped := st.skipped + 1 } rest := by
  have hstep : stepRef env st (some r) = { st with skipped := st.skipped + 1 } := by
    rw [stepRef]
    rcases h with h | h
    · rw [if_pos h]
    · by_cases h35 : r.title = 35
      · rw [if_pos h35]
      · rw [if_neg h35, if_pos h]
  exact ⟨hstep, by rw [processRefs, List.foldl_cons, hstep]; rfl⟩

theorem claim_C8_witness :
    stepRef ⟨fun _ => false, fun _ => none⟩ ⟨0, 0, 0, 0, []⟩ (some ⟨2, none, none⟩) =
      ⟨0, 0, 0, 1, []⟩ ∧
    processRefs ⟨fun _ => false, fun _ => none⟩ ⟨0, 0, 0, 0, []⟩ [some ⟨2, none, none⟩] =
      processRefs ⟨fun _ => false, fun _ => none⟩ ⟨0, 0, 0, 1, []⟩ [] :=
  claim_C8 ⟨fun _ => false, fun _ => none⟩ ⟨0, 0, 0, 0, []⟩ ⟨2, none, none⟩ []
    (Or.inr rfl)

/-! ## Claim C4: failure isolation and the two fatal phases -/

/-- Claim C4 (amended): no error in per-agency or per-reference
processing is fatal to the run — a per-reference error adds zero to the
totals and the loop continues with the next reference; a per-agency
persistence error rolls the database back to its prior rows and the loop
continues with the next agency — while a failure of the corpus-sync
phase or of the scope-resolution phase aborts the run before any agency
is processed, leaving the previously persisted rows untouched so the
caller can retry later.  (The claim as frozen also says such a failure
"is surfaced"; in the code it is caught and logged inside
`run_ingestion` and not propagated, see the counterexample.) -/
theorem claim_C4 :
    (∀ (env : Corpus) (pf : String → Bool) (e : String)
       (scope : Except String (List (String × List RefItem)))
       (db0 : DB) (c0 : List (String × (Nat × Nat))),
       run_ingestion env pf (.error e) scope db0 c0 = ⟨db0, none⟩) ∧
    (∀ (env : Corpus) (pf : String → Bool) (e : String)
       (db0 : DB) (c0 : List (String × (Nat × Nat))),
       run_ingestion env pf (.ok ()) (.error e) db0 c0 = ⟨db0, none⟩) ∧
    (∀ (env : Corpus) (st : RefLoopSt) (rest : List RefItem),
       processRefs env st (none :: rest) =
         processRefs env { st with skipped := st.skipped + 1 } rest) ∧
    (∀ (env : Corpus) (pf : String → Bool) (db : DB) (c : List (String × (Nat × Nat)))
       (n : String) (refs : List RefItem) (rest : List (String × List RefItem)),
       pf n = true →
       ((n, refs) :: rest).foldl (stepAgency env pf) (db, c) =
         rest.foldl (stepAgency env pf) (db, (processRefs env ⟨0, 0, 0, 0, c⟩ refs).cache)) := by
  refine ⟨fun _ _ _ _ _ _ => rfl, fun _ _ _ _ _ => rfl, ?_, ?_⟩
  · intro env st rest
    rw [processRefs, List.foldl_cons]
    rfl
  · intro env pf db c n refs rest hpf
    rw [List.foldl_cons]
    unfold stepAgency
    rw [if_pos hpf]

theorem claim_C4_witness :
    run_ingestion ⟨fun _ => false, fun _ => none⟩ (fun _ => false)
        (.error "boom") (.ok []) [("Old", 1, 2)] [] = ⟨[("Old", 1, 2)], none⟩ ∧
    ([("A", ([] : List RefItem))].foldl
        (stepAgency ⟨fun _ => false, fun _ => none⟩ (fun _ => true)) ([], [])) =
      ([].foldl (stepAgency ⟨fun _ => false, fun _ => none⟩ (fun _ => true))
        ([], (processRefs ⟨fun _ => false, fun _ => none⟩ ⟨0, 0, 0, 0, []⟩ []).cache)) :=
  ⟨claim_C4.1 ⟨fun _ => false, fun _ => none⟩ (fun _ => false) "boom" (.ok []) [("Old", 1, 2)] [],
   claim_C4.2.2.2 ⟨fun _ => false, fun _ => none⟩ (fun _ => true) [] [] "A" [] [] rfl⟩

/-- Counterexample to claim C4 as frozen: a corpus-sync failure does
abort the run (the prior database rows are untouched and no agency is
processed), but nothing is surfaced to the caller — `run_ingestion`
catches the error, logs it and returns normally (`raised = none`). -/
theorem claim_C4_counterexample :
    (run_ingestion ⟨fun _ => false, fun _ => none⟩ (fun _ => false)
        (.error "network failure") (.ok []) [("Old", 1, 2)] []).raised = none ∧
    (run_ingestion ⟨fun _ => false, fun _ => none⟩ (fun _ => false)
        (.error "network failure") (.ok []) [("Old", 1, 2)] []).db = [("Old", 1, 2)] :=
  ⟨rfl, rfl⟩

/-! ## Claim C6: monotonicity of the word count under subtree containment -/

theorem mem_preorderList {s : XML} {l : List XML} :
    s ∈ preorderList l ↔ ∃ c ∈ l, s ∈ preorder c := by
  induction l with
  | nil => rw [preorderList]; simp
  | cons c cs ih =>
    rw [preorderList]
    simp only [List.mem_append, ih, List.mem_cons]
    constructor
    · rintro (h | ⟨d, hd, hsd⟩)
      · exact ⟨c, Or.inl rfl, h⟩
      · exact ⟨d, Or.inr hd, hsd⟩
    · rintro ⟨d, rfl | hd, hsd⟩
      · exact Or.inl hsd
      · exact Or.inr ⟨d, hd, hsd⟩

theorem heightList_ge {c : XML} {l : List XML} (hc : c ∈ l) : height c + 1 ≤ heightList l := by
  induction l with
  | nil => cases hc
  | cons d l' ih =>
    rw [heightList]
    rcases List.mem_cons.1 hc with rfl | h
    · exact Nat.le_max_left _ _
    · exact le_trans (ih h) (Nat.le_max_right _ _)

theorem height_le_of_mem_preorder (x : XML) : ∀ {s : XML}, s ∈ preorder x → height s ≤ height x := by
  induction x using XML.ind with
  | _ t n tx tl ch ih =>
    intro s hs
    rw [preorder] at hs
    rcases List.mem_cons.1 hs with rfl | hs'
    · exact le_refl _
    · rcases mem_preorderList.1 hs' with ⟨c, hc, hsc⟩
      have h1 := ih c hc hsc
      have h2 := heightList_ge hc
      rw [height]
      omega

theorem cwNGList_ge {c : XML} {l : List XML} (hc : c ∈ l) : cwNG c ≤ cwNGList l := by
  induction l with
  | nil => cases hc
  | cons d l' ih =>
    rw [cwNGList]
    rcases List.mem_cons.1 hc with rfl | h
    · omega
    · have := ih h; omega

theorem cwNG_mono (x : XML) : ∀ {s : XML}, s ∈ preorder x → cwNG s ≤ cwNG x := by
  induction x using XML.ind with
  | _ t n tx tl ch ih =>
    intro s hs
    rw [preorder] at hs
    rcases List.mem_cons.1 hs with rfl | hs'
    · exact le_refl _
    · rcases mem_preorderList.1 hs' with ⟨c, hc, hsc⟩
      have h1 := ih c hc hsc
      have h2 := cwNGList_ge hc
      rw [cwNG]
      omega

theorem count_words_list_eq (ch : List XML)
    (ih : ∀ c ∈ ch, ∀ d, height c + d ≤ 100 → count_words c d = cwNG c) :
    ∀ d, heightList ch + d ≤ 100 → count_words_list ch d = cwNGList ch := by
  induction ch with
  | nil => intro d _; rw [count_words_list, cwNGList]
  | cons c cs ihl =>
    intro d hd
    rw [count_words_list, cwNGList]
    rw [heightList] at hd
    have hmc : height c + 1 ≤ max (height c + 1) (heightList cs) := Nat.le_max_left _ _
    have hms : heightList cs ≤ max (height c + 1) (heightList cs) := Nat.le_max_right _ _
    rw [ih c (List.mem_cons_self _ _) (d + 1) (by omega),
        ihl (fun c' hc' => ih c' (List.mem_cons_of_mem _ hc')) d (by omega)]

/-- On elements whose subtree never reaches the depth guard, the guarded
counter agrees with the unguarded one. -/
theorem count_words_eq_cwNG (x : XML) : ∀ d, height x + d ≤ 100 → count_words x d = cwNG x := by
  induction x using XML.ind with
  | _ t n tx tl ch ih =>
    intro d hd
    rw [height] at hd
    rw [count_words, cwNG, if_neg (by omega : ¬ d > 100),
        count_words_list_eq ch ih d hd]

/-- Claim C6 (amended): starting the counter at the document root yields
at least the count of any proper subtree, **provided the document's
element nesting stays within the traversal-depth guard** (height at most
100, so no subtree is truncated).  For deeper documents the guard can
truncate the root's count below a subtree's count — see the
counterexample, which is why the claim as frozen ("including in the
presence of the maximum-traversal-depth guard") fails. -/
theorem claim_C6 (root s : XML) (hs : s ∈ preorderList root.children)
    (hh : height root ≤ 100) :
    count_words s 0 ≤ count_words root 0 := by
  have hsp : s ∈ preorder root := by
    cases root with
    | mk t n tx tl ch =>
      rw [preorder]
      exact List.mem_cons_of_mem _ hs
  have h1 : height s ≤ height root := height_le_of_mem_preorder root hsp
  rw [count_words_eq_cwNG s 0 (by omega), count_words_eq_cwNG root 0 (by omega)]
  exact cwNG_mono root hsp

theorem claim_C6_witness :
    count_words (.mk "B" none (some "w") none []) 0 ≤
      count_words (.mk "A" none none none [.mk "B" none (some "w") none []]) 0 :=
  claim_C6 (.mk "A" none none none [.mk "B" none (some "w") none []])
    (.mk "B" none (some "w") none [])
    (by rw [XML.children, preorderList, preorder, preorderList]; simp)
    (by rw [height, heightList, height, heightList]; omega)

/-- A linear chain of elements: `chain n` nests `n + 1` elements, the
innermost carrying one word of text. -/
def chain : Nat → XML
  | 0 => .mk "E" none (some "hello") none []
  | n + 1 => .mk "E" none none none [chain n]

theorem chain_tail (n : Nat) : (chain n).tail = none := by
  cases n <;> rfl

theorem count_words_chain (n : Nat) : ∀ d, count_words (chain n) d =
    if n + d ≤ 100 then 1 else 0 := by
  induction n with
  | zero =>
    intro d
    show count_words (.mk "E" none (some "hello") none []) d = _
    rw [count_words, count_words_list]
    by_cases h : d ≤ 100
    · rw [if_neg (by omega : ¬ d > 100), if_pos (by omega)]
      rfl
    · rw [if_pos (by omega : d > 100), if_neg (by omega)]
  | succ n ih =>
    intro d
    show count_words (.mk "E" none none none [chain n]) d = _
    rw [count_words, count_words_list, count_words_list, chain_tail, ih (d + 1)]
    by_cases h : d ≤ 100
    · rw [if_neg (by omega : ¬ d > 100)]
      by_cases h2 : n + (d + 1) ≤ 100
      · rw [if_pos h2, if_pos (by omega)]
        rfl
      · rw [if_neg h2, if_neg (by omega)]
        rfl
    · rw [if_pos (by omega : d > 100), if_neg (by omega)]

theorem chain_mem_preorder : ∀ m n, n ≤ m → chain n ∈ preorder (chain m) := by
  intro m
  induction m with
  | zero =>
    intro n h
    interval_cases n
    show chain 0 ∈ preorder (.mk "E" none (some "hello") none [])
    rw [preorder]
    exact List.mem_cons_self _ _
  | succ m ih =>
    intro n h
    show chain n ∈ preorder (.mk "E" none none none [chain m])
    rw [preorder, preorderList, preorderList]
    rcases Nat.lt_or_ge n (m + 1) with h' | h'
    · exact List.mem_cons_of_mem _ (by simpa using ih n (by omega))
    · have : n = m + 1 := by omega
      subst this
      exact List.mem_cons_self _ _

/-- Counterexample to claim C6 as frozen: in a 103-element chain,
`chain 100` is a proper subtree of the root `chain 102`, yet counting
from the root yields 0 (the one word of text sits at depth 102, beyond
the guard) while counting from the subtree yields 1 — the depth guard
breaks monotonicity on documents deeper than it. -/
theorem claim_C6_counterexample :
    chain 100 ∈ preorderList (XML.children (chain 102)) ∧
    count_words (chain 102) 0 < count_words (chain 100) 0 := by
  constructor
  · show chain 100 ∈ preorderList (XML.children (.mk "E" none none none [chain 101]))
    rw [XML.children, preorderList, preorderList]
    simpa using chain_mem_preorder 101 100 (by omega)
  · rw [count_words_chain 102 0, count_words_chain 100 0]
    norm_num

/-! ## Claim C5: cache keys identify the (filename, reference) pair

The identifier strings of the eCFR feed are plain printable ASCII; the
injectivity statements below are made under that hypothesis (`plainChar`
excludes exactly the characters `json.dumps` escapes), and the md5 step
of `get_cache_key` is out of scope per the spec, so the file-backed key
is analysed as its pre-hash input `key_data`. -/

/-- A character `json.dumps` leaves unescaped: printable ASCII other
than the quote and the backslash. -/
def plainChar (c : Char) : Prop :=
  32 ≤ c.toNat ∧ c.toNat ≤ 126 ∧ c ≠ '"' ∧ c ≠ '\\'

instance (c : Char) : Decidable (plainChar c) := by
  unfold plainChar
  infer_instance

def plainStr (s : String) : Prop := ∀ c ∈ s.data, plainChar c

instance (s : String) : Decidable (plainStr s) := by
  unfold plainStr
  infer_instance

def plainOpt : Option String → Prop
  | none => True
  | some s => plainStr s

instance : ∀ o : Option String, Decidable (plainOpt o)
  | none => .isTrue trivial
  | some s => inferInstanceAs (Decidable (plainStr s))

def plainRef (r : CFRRef) : Prop := plainOpt r.chapter ∧ plainOpt r.part

instance (r : CFRRef) : Decidable (plainRef r) := by
  unfold plainRef
  infer_instance

/-- No colon in a filename (true of every `data/titles/title-N.xml`). -/
def colonFree (f : String) : Prop := ':' ∉ f.data

instance (f : String) : Decidable (colonFree f) := by
  unfold colonFree
  infer_instance

/-- No underscore in the chapter/part values of a reference — the
delimiter the in-memory `xml_cache` key is glued with. -/
def ufree (r : CFRRef) : Prop :=
  '_' ∉ (r.chapter.getD "").data ∧ '_' ∉ (r.part.getD "").data

instance (r : CFRRef) : Decidable (ufree r) := by
  unfold ufree
  infer_instance

theorem escChar_plain {c : Char} (h : plainChar c) : escChar c = [c] := by
  obtain ⟨h1, h2, h3, h4⟩ := h
  have hn : c ≠ '\n' := by intro he; subst he; exact absurd h1 (by decide)
  have ht : c ≠ '\t' := by intro he; subst he; exact absurd h1 (by decide)
  have hr : c ≠ '\r' := by intro he; subst he; exact absurd h1 (by decide)
  have hb : c ≠ '\x08' := by intro he; subst he; exact absurd h1 (by decide)
  have hf : c ≠ '\x0c' := by intro he; subst he; exact absurd h1 (by decide)
  rw [escChar, if_neg h3, if_neg h4, if_neg hn, if_neg ht, if_neg hr, if_neg hb, if_neg hf,
      if_neg (by omega : ¬ c.toNat < 32), if_pos (by omega : c.toNat < 127)]

theorem escList_plain : ∀ l : List Char, (∀ c ∈ l, plainChar c) → (l.map escChar).flatten = l := by
  intro l
  induction l with
  | nil => intro _; rfl
  | cons c cs ih =>
    intro h
    rw [List.map_cons, List.flatten_cons, escChar_plain (h c (List.mem_cons_self _ _)),
        ih (fun d hd => h d (List.mem_cons_of_mem _ hd))]
    rfl

theorem escData_plain {s : String} (h : plainStr s) : escData s = s.data :=
  escList_plain s.data h

theorem quote_not_mem_plain {s : String} (h : plainStr s) : '"' ∉ s.data := by
  intro hm
  exact (h _ hm).2.2.1 rfl

/-- Splitting two plain JSON string values at their closing quote. -/
theorem quote_split {c1 c2 : String} (h1 : plainStr c1) (h2 : plainStr c2)
    {x y : List Char} (h : escData c1 ++ '"' :: x = escData c2 ++ '"' :: y) :
    c1 = c2 ∧ x = y := by
  rw [escData_plain h1, escData_plain h2] at h
  have := split_unique c1.data (quote_not_mem_plain h1) (quote_not_mem_plain h2) h
  exact ⟨string_eq_of_data this.1, this.2⟩

theorem title_tail_inj {t1 t2 : Nat}
    (h : natChars t1 ++ ['\x7d'] = natChars t2 ++ ['\x7d']) : t1 = t2 :=
  natChars_inj (List.append_cancel_right h)

theorem jsonDumps_sn (t : Nat) (c : String) :
    (jsonDumps ⟨t, some c, none⟩).data =
      '\x7b' :: '"' :: 'c' :: 'h' :: 'a' :: 'p' :: 't' :: 'e' :: 'r' :: '"' :: ':' :: ' ' :: '"' ::
      (escData c ++ '"' :: ',' :: ' ' :: '"' :: 't' :: 'i' :: 't' :: 'l' :: 'e' :: '"' :: ':' :: ' ' ::
      (natChars t ++ ['\x7d'])) := by
  simp [jsonDumps, jsonStr, natString, String.data_append]

theorem jsonDumps_ss (t : Nat) (c p : String) :
    (jsonDumps ⟨t, some c, some p⟩).data =
      '\x7b' :: '"' :: 'c' :: 'h' :: 'a' :: 'p' :: 't' :: 'e' :: 'r' :: '"' :: ':' :: ' ' :: '"' ::
      (escData c ++ '"' :: ',' :: ' ' :: '"' :: 'p' :: 'a' :: 'r' :: 't' :: '"' :: ':' :: ' ' :: '"' ::
      (escData p ++ '"' :: ',' :: ' ' :: '"' :: 't' :: 'i' :: 't' :: 'l' :: 'e' :: '"' :: ':' :: ' ' ::
      (natChars t ++ ['\x7d']))) := by
  simp [jsonDumps, jsonStr, natString, String.data_append]

theorem jsonDumps_ns (t : Nat) (p : String) :
    (jsonDumps ⟨t, none, some p⟩).data =
      '\x7b' :: '"' :: 'p' :: 'a' :: 'r' :: 't' :: '"' :: ':' :: ' ' :: '"' ::
      (escData p ++ '"' :: ',' :: ' ' :: '"' :: 't' :: 'i' :: 't' :: 'l' :: 'e' :: '"' :: ':' :: ' ' ::
      (natChars t ++ ['\x7d'])) := by
  simp [jsonDumps, jsonStr, natString, String.data_append]

theorem jsonDumps_nn (t : Nat) :
    (jsonDumps ⟨t, none, none⟩).data =
      '\x7b' :: '"' :: 't' :: 'i' :: 't' :: 'l' :: 'e' :: '"' :: ':' :: ' ' ::
      (natChars t ++ ['\x7d']) := by
  simp [jsonDumps, natString, String.data_append]

/-- On plain references, `json.dumps(structure, sort_keys=True)`
determines the structure. -/
theorem jsonDumps_inj : ∀ {r1 r2 : CFRRef}, plainRef r1 → plainRef r2 →
    jsonDumps r1 = jsonDumps r2 → r1 = r2 := by
  intro r1 r2 h1 h2 h
  obtain ⟨t1, ch1, p1⟩ := r1
  obtain ⟨t2, ch2, p2⟩ := r2
  obtain ⟨hc1, hp1⟩ := h1
  obtain ⟨hc2, hp2⟩ := h2
  have hd := congrArg String.data h
  match ch1, p1, ch2, p2 with
  | some c1, some q1, some c2, some q2 =>
    rw [jsonDumps_ss, jsonDumps_ss] at hd
    simp only [List.cons.injEq, true_and] at hd
    obtain ⟨rfl, hd2⟩ := quote_split hc1 hc2 hd
    simp only [List.cons.injEq, true_and] at hd2
    obtain ⟨rfl, hd3⟩ := quote_split hp1 hp2 hd2
    simp only [List.cons.injEq, true_and] at hd3
    rw [title_tail_inj hd3]
  | some c1, some q1, some c2, none =>
    rw [jsonDumps_ss, jsonDumps_sn] at hd
    simp only [List.cons.injEq, true_and] at hd
    obtain ⟨-, hd2⟩ := quote_split hc1 hc2 hd
    simp at hd2
  | some c1, some q1, none, some q2 =>
    rw [jsonDumps_ss, jsonDumps_ns] at hd
    simp at hd
  | some c1, some q1, none, none =>
    rw [jsonDumps_ss, jsonDumps_nn] at hd
    simp at hd
  | some c1, none, some c2, some q2 =>
    rw [jsonDumps_sn, jsonDumps_ss] at hd
    simp only [List.cons.injEq, true_and] at hd
    obtain ⟨-, hd2⟩ := quote_split hc1 hc2 hd
    simp at hd2
  | some c1, none, some c2, none =>
    rw [jsonDumps_sn, jsonDumps_sn] at hd
    simp only [List.cons.injEq, true_and] at hd
    obtain ⟨rfl, hd2⟩ := quote_split hc1 hc2 hd
    simp only [List.cons.injEq, true_and] at hd2
    rw [title_tail_inj hd2]
  | some c1, none, none, some q2 =>
    rw [jsonDumps_sn, jsonDumps_ns] at hd
    simp at hd
  | some c1, none, none, none =>
    rw [jsonDumps_sn, jsonDumps_nn] at hd
    simp at hd
  | none, some q1, some c2, some q2 =>
    rw [jsonDumps_ns, jsonDumps_ss] at hd
    simp at hd
  | none, some q1, some c2, none =>
    rw [jsonDumps_ns, jsonDumps_sn] at hd
    simp at hd
  | none, some q1, none, some q2 =>
    rw [jsonDumps_ns, jsonDumps_ns] at hd
    simp only [List.cons.injEq, true_and] at hd
    obtain ⟨rfl, hd2⟩ := quote_split hp1 hp2 hd
    simp only [List.cons.injEq, true_and] at hd2
    rw [title_tail_inj hd2]
  | none, some q1, none, none =>
    rw [jsonDumps_ns, jsonDumps_nn] at hd
    simp at hd
  | none, none, some c2, some q2 =>
    rw [jsonDumps_nn, jsonDumps_ss] at hd
    simp at hd
  | none, none, some c2, none =>
    rw [jsonDumps_nn, jsonDumps_sn] at hd
    simp at hd
  | none, none, none, some q2 =>
    rw [jsonDumps_nn, jsonDumps_ns] at hd
    simp at hd
  | none, none, none, none =>
    rw [jsonDumps_nn, jsonDumps_nn] at hd
    simp only [List.cons.injEq, true_and] at hd
    rw [title_tail_inj hd]

/-- On colon-free filenames and plain references, the pre-hash input of
`get_cache_key` determines the whole `(filename, structure)` pair. -/
theorem key_data_inj {f1 f2 : String} {r1 r2 : CFRRef} (hf1 : colonFree f1) (hf2 : colonFree f2)
    (hr1 : plainRef r1) (hr2 : plainRef r2) (h : key_data f1 r1 = key_data f2 r2) :
    f1 = f2 ∧ r1 = r2 := by
  have hd := congrArg String.data h
  have e : ∀ (g : String) (r : CFRRef),
      (key_data g r).data = g.data ++ ':' :: (jsonDumps r).data := by
    intro g r
    simp [key_data, String.data_append]
  rw [e, e] at hd
  have hs := split_unique f1.data hf1 hf2 hd
  exact ⟨string_eq_of_data hs.1, jsonDumps_inj hr1 hr2 (string_eq_of_data hs.2)⟩

/-- On underscore-free values, equal `xml_cache` keys force equal titles
and equal chapter/part values up to the absent-versus-empty distinction
(which the key erases via `ref.get(…, '')`). -/
theorem xml_cache_key_canon {r1 r2 : CFRRef} (h1 : ufree r1) (h2 : ufree r2)
    (h : xml_cache_key r1 = xml_cache_key r2) :
    r1.title = r2.title ∧ r1.chapter.getD "" = r2.chapter.getD "" ∧
      r1.part.getD "" = r2.part.getD "" := by
  have hd := congrArg String.data h
  have e : ∀ r : CFRRef, (xml_cache_key r).data =
      natChars r.title ++ '_' :: ((r.chapter.getD "").data ++ '_' :: (r.part.getD "").data) := by
    intro r
    simp [xml_cache_key, natString, String.data_append]
  rw [e, e] at hd
  have hu : ∀ n : Nat, '_' ∉ natChars n :=
    fun n => not_mem_natChars_of_toNat (Or.inr (by decide)) n
  have s1 := split_unique (natChars r1.title) (hu _) (hu _) hd
  have s2 := split_unique ((r1.chapter.getD "").data) h1.1 h2.1 s1.2
  exact ⟨natChars_inj s1.1, string_eq_of_data s2.1, string_eq_of_data s2.2⟩

/-- The navigator reads a string level only through its falsy-or-value
content, so the absent-versus-empty distinction is invisible to it. -/
theorem levelValStr_congr {o1 o2 : Option String} (h : o1.getD "" = o2.getD "") :
    levelValStr o1 = levelValStr o2 := by
  cases o1 with
  | none =>
    cases o2 with
    | none => rfl
    | some s => simp only [Option.getD] at h; simp [levelValStr, ← h]
  | some s =>
    cases o2 with
    | none => simp only [Option.getD] at h; simp [levelValStr, h]
    | some s2 => simp only [Option.getD] at h; rw [h]

theorem countFor_congr (env : Corpus) {r1 r2 : CFRRef} (ht : r1.title = r2.title)
    (hc : r1.chapter.getD "" = r2.chapter.getD "") (hp : r1.part.getD "" = r2.part.getD "") :
    countFor env r1 = countFor env r2 := by
  unfold countFor get_section_and_word_count_by_structure navigate
  rw [ht, levelValStr_congr hc, levelValStr_congr hp]

/-- Claim C5 (amended): the file-backed result-cache key construction is
injective over the whole `(filename, reference)` pair — for colon-free
filenames and references whose level values avoid the characters
`json.dumps` escapes, the pre-hash `key_data` string determines filename
and every field of the reference (md5 collisions are out of scope per
the spec).  The in-memory `xml_cache` key is **not** injective (its `_`
delimiter can collide with underscores inside level values, see the
counterexample), but on underscore-free values two references share a
key only when they agree on title and on chapter/part up to the
absent-versus-empty distinction, which the Navigator also ignores — so a
shared key then never returns a result for a semantically different
reference. -/
theorem claim_C5 :
    (∀ (f1 f2 : String) (r1 r2 : CFRRef), colonFree f1 → colonFree f2 →
        plainRef r1 → plainRef r2 → key_data f1 r1 = key_data f2 r2 → f1 = f2 ∧ r1 = r2) ∧
    (∀ r1 r2 : CFRRef, ufree r1 → ufree r2 → xml_cache_key r1 = xml_cache_key r2 →
        r1.title = r2.title ∧ ∀ env : Corpus, countFor env r1 = countFor env r2) := by
  constructor
  · intro f1 f2 r1 r2 hf1 hf2 hr1 hr2 h
    exact key_data_inj hf1 hf2 hr1 hr2 h
  · intro r1 r2 h1 h2 h
    obtain ⟨ht, hc, hp⟩ := xml_cache_key_canon h1 h2 h
    exact ⟨ht, fun env => countFor_congr env ht hc hp⟩

theorem claim_C5_witness :
    ("data/titles/title-1.xml" = "data/titles/title-1.xml" ∧
      CFRRef.mk 1 (some "III") (some "425") = CFRRef.mk 1 (some "III") (some "425")) ∧
    ((CFRRef.mk 7 none none).title = (CFRRef.mk 7 none none).title ∧
      ∀ env : Corpus, countFor env (CFRRef.mk 7 none none) = countFor env (CFRRef.mk 7 none none)) :=
  ⟨claim_C5.1 "data/titles/title-1.xml" "data/titles/title-1.xml"
      (CFRRef.mk 1 (some "III") (some "425")) (CFRRef.mk 1 (some "III") (some "425"))
      (by decide) (by decide) (by decide) (by decide) rfl,
   claim_C5.2 (CFRRef.mk 7 none none) (CFRRef.mk 7 none none) (by decide) (by decide) rfl⟩

/-- A document and corpus on which the two colliding references below
genuinely disagree: title 1 holds a `DIV3` identified `2_3` (with one
section), and no `DIV3` identified `2`. -/
def collideDoc : XML :=
  .mk "ROOT" none none none
    [.mk "DIV1" (some "1") none none
      [.mk "DIV3" (some "2_3") none none [.mk "DIV8" none none none []]]]

def collideEnv : Corpus :=
  ⟨fun t => t == 1, fun t => if t == 1 then some collideDoc else none⟩

theorem countFor_collide1 : countFor collideEnv ⟨1, some "2_3", none⟩ = (1, 0) := by
  simp [collideEnv, collideDoc, countFor, get_section_and_word_count_by_structure, navigate,
    navLevels, levelValTitle, levelValStr, natString_1, findN, iterTag, preorder, preorderList,
    XML.tag, XML.attrN, XML.tail, count_words, count_words_list, wordsOpt]

theorem countFor_collide2 : countFor collideEnv ⟨1, some "2", some "3_"⟩ = (0, 0) := by
  simp [collideEnv, collideDoc, countFor, get_section_and_word_count_by_structure, navigate,
    navLevels, levelValTitle, levelValStr, natString_1, findN, iterTag, preorder, preorderList,
    XML.tag, XML.attrN]

/-- Counterexample to claim C5 as frozen: the in-memory `xml_cache` key
`f"{title}_{chapter}_{part}"` is not injective — the distinct references
`{title: 1, chapter: "2_3"}` and `{title: 1, chapter: "2", part: "3_"}`
build the same key `"1_2_3_"` yet navigate to different subtrees (counts
`(1, 0)` versus `(0, 0)` on `collideEnv`), so a cached result can be
returned for the wrong reference. -/
theorem claim_C5_counterexample :
    (CFRRef.mk 1 (some "2_3") none ≠ CFRRef.mk 1 (some "2") (some "3_")) ∧
    xml_cache_key ⟨1, some "2_3", none⟩ = xml_cache_key ⟨1, some "2", some "3_"⟩ ∧
    countFor collideEnv ⟨1, some "2_3", none⟩ = (1, 0) ∧
    countFor collideEnv ⟨1, some "2", some "3_"⟩ = (0, 0) := by
  refine ⟨by decide, ?_, countFor_collide1, countFor_collide2⟩
  simp only [xml_cache_key, natString_1]
  rfl

/-! ## Claim C1: persisted totals are the sum of per-reference counts -/

/-- Every entry of the in-memory `xml_cache` was stored by some
underscore-free reference under that reference's key, with that
reference's parser result as its value. -/
def CacheOK (env : Corpus) (c : List (String × (Nat × Nat))) : Prop :=
  ∀ k v, (k, v) ∈ c → ∃ r0 : CFRRef, ufree r0 ∧ xml_cache_key r0 = k ∧ v = countFor env r0

theorem lookup_mem {β : Type} {l : List (String × β)} {k : String} {v : β}
    (h : l.lookup k = some v) : (k, v) ∈ l := by
  induction l with
  | nil => simp [List.lookup] at h
  | cons p l' ih =>
    obtain ⟨k', v'⟩ := p
    rw [List.lookup] at h
    cases he : k == k' with
    | true =>
      rw [he] at h
      have hv : v' = v := by simpa using h
      have hk : k = k' := by simpa using he
      subst hv
      subst hk
      exact List.mem_cons_self _ _
    | false =>
      rw [he] at h
      exact List.mem_cons_of_mem _ (ih h)

theorem sumPairs_cons (x : Nat × Nat) (l : List (Nat × Nat)) :
    sumPairs (x :: l) = (x.1 + (sumPairs l).1, x.2 + (sumPairs l).2) := by
  simp [sumPairs]

/-- One well-formed, underscore-free reference adds exactly its
specification contribution to the totals — whether it is skipped, served
from a sound cache, or freshly computed — and keeps the cache sound. -/
theorem stepRef_spec (env : Corpus) (st : RefLoopSt) (r : CFRRef)
    (hc : CacheOK env st.cache) (hu : ufree r) :
    (stepRef env st (some r)).sTot = st.sTot + (specContrib env r).1 ∧
    (stepRef env st (some r)).wTot = st.wTot + (specContrib env r).2 ∧
    CacheOK env (stepRef env st (some r)).cache := by
  rw [stepRef]
  by_cases h35 : r.title = 35
  · rw [if_pos h35]
    refine ⟨?_, ?_, hc⟩ <;> simp [specContrib, h35]
  · rw [if_neg h35]
    by_cases hex : env.fileExists r.title
    · rw [if_neg (by simp [hex] : ¬ env.fileExists r.title = false)]
      have hsc : specContrib env r = countFor env r := by
        rw [specContrib, if_neg (by simp [h35, hex])]
      cases hlk : st.cache.lookup (xml_cache_key r) with
      | some v =>
        obtain ⟨sc, wc⟩ := v
        obtain ⟨r0, hu0, hk0, hv0⟩ := hc _ _ (lookup_mem hlk)
        obtain ⟨ht, hch, hp⟩ := xml_cache_key_canon hu0 hu hk0
        have hcf : countFor env r0 = countFor env r := countFor_congr env ht hch hp
        have hv : (sc, wc) = specContrib env r := by rw [hsc, ← hcf, ← hv0]
        refine ⟨?_, ?_, hc⟩
        · show st.sTot + sc = st.sTot + (specContrib env r).1
          rw [← hv]
        · show st.wTot + wc = st.wTot + (specContrib env r).2
          rw [← hv]
      | none =>
        cases hcv : countFor env r with
        | mk sc wc =>
          refine ⟨?_, ?_, ?_⟩
          · show st.sTot + sc = st.sTot + (specContrib env r).1
            rw [hsc, hcv]
          · show st.wTot + wc = st.wTot + (specContrib env r).2
            rw [hsc, hcv]
          · intro k v hkv
            rcases List.mem_cons.1 hkv with he | he
            · rw [Prod.mk.injEq] at he
              obtain ⟨rfl, rfl⟩ := he
              exact ⟨r, hu, rfl, hcv.symm⟩
            · exact hc k v he
    · rw [if_pos (by simp [hex] : env.fileExists r.title = false)]
      refine ⟨?_, ?_, hc⟩ <;> simp [specContrib, hex]

theorem processRefs_spec (env : Corpus) (refs : List CFRRef) :
    ∀ st : RefLoopSt, CacheOK env st.cache → (∀ r ∈ refs, ufree r) →
      (processRefs env st (refs.map some)).sTot
          = st.sTot + (sumPairs (refs.map (specContrib env))).1 ∧
      (processRefs env st (refs.map some)).wTot
          = st.wTot + (sumPairs (refs.map (specContrib env))).2 ∧
      CacheOK env (processRefs env st (refs.map some)).cache := by
  induction refs with
  | nil =>
    intro st hc _
    refine ⟨?_, ?_, hc⟩ <;> simp [processRefs, sumPairs]
  | cons r rest ih =>
    intro st hc hu
    have hstep := stepRef_spec env st r hc (hu r (List.mem_cons_self _ _))
    have hrest := ih (stepRef env st (some r)) hstep.2.2
      (fun x hx => hu x (List.mem_cons_of_mem _ hx))
    have hpr : processRefs env st ((r :: rest).map some) =
        processRefs env (stepRef env st (some r)) (rest.map some) := by
      rw [List.map_cons, processRefs, List.foldl_cons]
      rfl
    rw [hpr, List.map_cons, sumPairs_cons]
    refine ⟨?_, ?_, hrest.2.2⟩
    · rw [hrest.1, hstep.1]
      omega
    · rw [hrest.2.1, hstep.2.1]
      omega

theorem upsertRow_fresh {db : DB} {n : String} (h : ∀ row ∈ db, row.1 ≠ n) (sc wc : Nat) :
    upsertRow db n sc wc = db ++ [(n, sc, wc)] := by
  rw [upsertRow, if_neg]
  intro hany
  rcases List.any_eq_true.1 hany with ⟨row, hmem, he⟩
  exact h row hmem (by simpa using he)

/-- The mapping `ingest.py` builds from a well-formed scope: a raw item
list in which every reference is a well-formed dict. -/
def liftScope (m : List (String × List CFRRef)) : List (String × List RefItem) :=
  m.map (fun e => (e.1, e.2.map some))

theorem agency_fold_spec (env : Corpus) (pf : String → Bool) :
    ∀ (m : List (String × List CFRRef)) (db : DB) (c : List (String × (Nat × Nat))),
      CacheOK env c →
      (∀ e ∈ m, ∀ r ∈ e.2, ufree r) →
      ((m.map Prod.fst).Nodup) →
      (∀ e ∈ m, ∀ row ∈ db, row.1 ≠ e.1) →
      ∀ row ∈ ((liftScope m).foldl (stepAgency env pf) (db, c)).1,
        row ∈ db ∨ ∃ refs, (row.1, refs) ∈ m ∧
          row.2.1 = (sumPairs (refs.map (specContrib env))).1 ∧
          row.2.2 = (sumPairs (refs.map (specContrib env))).2 := by
  intro m
  induction m with
  | nil =>
    intro db c _ _ _ _ row hrow
    exact Or.inl (by simpa [liftScope] using hrow)
  | cons e rest ih =>
    obtain ⟨n, refs⟩ := e
    intro db c hc hu hnd hfresh row hrow
    rw [liftScope, List.map_cons, List.foldl_cons] at hrow
    have hps := processRefs_spec env refs ⟨0, 0, 0, 0, c⟩ hc
      (fun r hr => hu (n, refs) (List.mem_cons_self _ _) r hr)
    have hndr : ((rest.map Prod.fst).Nodup) := by
      rw [List.map_cons] at hnd
      exact hnd.of_cons
    have hnmem : n ∉ rest.map Prod.fst := by
      rw [List.map_cons] at hnd
      exact (List.nodup_cons.1 hnd).1
    set st := processRefs env ⟨0, 0, 0, 0, c⟩ (refs.map some) with hst
    have hstep : stepAgency env pf (db, c) (n, refs.map some) =
        (if pf n then db else upsertRow db n st.sTot st.wTot, st.cache) := by
      rw [stepAgency]
      split <;> rfl
    rw [hstep] at hrow
    by_cases hpf : pf n
    · rw [if_pos hpf] at hrow
      have := ih db st.cache hps.2.2
        (fun e' he' => hu e' (List.mem_cons_of_mem _ he'))
        hndr
        (fun e' he' row' hrow' => hfresh e' (List.mem_cons_of_mem _ he') row' hrow')
        row hrow
      rcases this with h | ⟨refs', hm, he1, he2⟩
      · exact Or.inl h
      · exact Or.inr ⟨refs', List.mem_cons_of_mem _ hm, he1, he2⟩
    · rw [if_neg hpf] at hrow
      have hfr : ∀ row ∈ db, row.1 ≠ n :=
        fun row' hrow' => hfresh (n, refs) (List.mem_cons_self _ _) row' hrow'
      rw [upsertRow_fresh hfr] at hrow
      have hfresh' : ∀ e' ∈ rest, ∀ row' ∈ db ++ [(n, st.sTot, st.wTot)], row'.1 ≠ e'.1 := by
        intro e' he' row' hrow'
        rcases List.mem_append.1 hrow' with h | h
        · exact hfresh e' (List.mem_cons_of_mem _ he') row' h
        · rcases List.mem_singleton.1 h with rfl
          intro hne
          have hne2 : n = e'.1 := hne
          refine hnmem ?_
          rw [hne2]
          exact List.mem_map_of_mem Prod.fst he'
      have := ih (db ++ [(n, st.sTot, st.wTot)]) st.cache hps.2.2
        (fun e' he' => hu e' (List.mem_cons_of_mem _ he'))
        hndr hfresh' row hrow
      rcases this with h | ⟨refs', hm, he1, he2⟩
      · rcases List.mem_append.1 h with h | h
        · exact Or.inl h
        · rcases List.mem_singleton.1 h with rfl
          refine Or.inr ⟨refs, List.mem_cons_self _ _, ?_, ?_⟩
          · have := hps.1
            simpa using this
          · have := hps.2.1
            simpa using this
      · exact Or.inr ⟨refs', List.mem_cons_of_mem _ hm, he1, he2⟩

/-- Claim C1 (amended): in a run from a fresh process (empty `xml_cache`)
whose scope map carries well-formed references with distinct agency
names and underscore-free chapter/part values, every persisted
`AgencyMetrics` row equals the componentwise sum of the per-reference
`CountResult`s over that agency's resolved scope, with references whose
document is absent or known-missing (title 35) contributing `(0, 0)`.
(Underscore-freedom is needed because the in-memory cache key can
otherwise conflate distinct references, see the counterexample.) -/
theorem claim_C1 (env : Corpus) (pf : String → Bool) (m : List (String × List CFRRef))
    (hnd : (m.map Prod.fst).Nodup) (hu : ∀ e ∈ m, ∀ r ∈ e.2, ufree r) :
    ∀ row ∈ (run_ingestion env pf (.ok ()) (.ok (liftScope m)) [] []).db,
      ∃ refs, (row.1, refs) ∈ m ∧
        row.2.1 = (sumPairs (refs.map (specContrib env))).1 ∧
        row.2.2 = (sumPairs (refs.map (specContrib env))).2 := by
  intro row hrow
  have := agency_fold_spec env pf m [] [] (fun k v h => absurd h (List.not_mem_nil _)) hu hnd
    (fun e _ row' hrow' => absurd hrow' (List.not_mem_nil _)) row
    (by simpa [run_ingestion] using hrow)
  rcases this with h | h
  · exact absurd h (List.not_mem_nil _)
  · exact h

theorem claim_C1_witness :
    ∃ refs, ((("A", 0, 0) : String × Nat × Nat).1, refs) ∈ [("A", [CFRRef.mk 2 none none])] ∧
      (("A", 0, 0) : String × Nat × Nat).2.1 =
        (sumPairs (refs.map (specContrib ⟨fun _ => false, fun _ => none⟩))).1 ∧
      (("A", 0, 0) : String × Nat × Nat).2.2 =
        (sumPairs (refs.map (specContrib ⟨fun _ => false, fun _ => none⟩))).2 :=
  claim_C1 ⟨fun _ => false, fun _ => none⟩ (fun _ => false) [("A", [CFRRef.mk 2 none none])]
    (by simp) (by decide) ("A", 0, 0)
    (by simp [run_ingestion, liftScope, processRefs, stepRef, stepAgency, upsertRow])

/-- Counterexample to claim C1 as frozen: with the colliding references
of `claim_C5`'s counterexample in one agency's scope, the run persists
`("A", 2, 0)` — the second reference is served the first one's cached
counts — while the sum of the references' own `CountResult`s is
`(1, 0)`. -/
theorem claim_C1_counterexample :
    (run_ingestion collideEnv (fun _ => false) (.ok ())
        (.ok [("A", [some ⟨1, some "2_3", none⟩, some ⟨1, some "2", some "3_"⟩])]) [] []).db
      = [("A", 2, 0)] ∧
    sumPairs ([⟨1, some "2_3", none⟩, (⟨1, some "2", some "3_"⟩ : CFRRef)].map
        (specContrib collideEnv))
      = (1, 0) := by
  have hk1 : xml_cache_key ⟨1, some "2_3", none⟩ = "1_2_3_" := by
    simp only [xml_cache_key, natString_1]
    rfl
  have hk2 : xml_cache_key ⟨1, some "2", some "3_"⟩ = "1_2_3_" := by
    simp only [xml_cache_key, natString_1]
    rfl
  have hfe : collideEnv.fileExists 1 = true := rfl
  constructor
  · simp [run_ingestion, stepAgency, processRefs, stepRef, hk1, hk2, hfe, countFor_collide1,
      countFor_collide2, List.lookup, upsertRow]
  · simp [sumPairs, specContrib, hfe, countFor_collide1, countFor_collide2]

end ECFR
